import Mathlib

/-!
Verification of the chat-e2e key-management and cipher subsystem.

The client code (embedded in `KEY_MANAGEMENT_FIX.md` as the React `App`
component) wraps the tweetnacl / tweetnacl-util libraries.  The library
primitives (`nacl.box.before`, `nacl.secretbox`, `nacl.secretbox.open`,
base64 and UTF-8 codecs) are external dependencies: they are modelled here
as records of functions, and the theorems take their documented contracts
(round-trip, authentication, Diffie-Hellman symmetry) as hypotheses.
Randomness (`nacl.randomBytes`) is modelled by passing the random bytes as
explicit arguments.  Everything the repository itself computes — nonce
construction, base64/UTF-8 threading, error mapping, counter management,
and the backend's key-grant endpoints — is translated directly from the
source.

Byte sequences are `List Nat`; JavaScript strings are sequences of UTF-16
code units, also `List Nat`.
-/

namespace ChatE2E

/-- Byte sequences (JS `Uint8Array`), one `Nat` per byte. -/
abbrev Bytes := List Nat

/-- JavaScript strings, modelled as their sequence of UTF-16 code units. -/
abbrev JSStr := List Nat

/-- Interface of the tweetnacl primitives the client uses.
`before` is `nacl.box.before` (X25519 shared-key derivation),
`secretbox` / `secretbox_open` are `nacl.secretbox` / `nacl.secretbox.open`
(XSalsa20-Poly1305), and `keyPair_pub` maps a secret key to the public key
`nacl.box.keyPair` would pair with it (crypto_scalarmult_base). -/
structure NaclLib where
  before : Bytes → Bytes → Bytes
  secretbox : Bytes → Bytes → Bytes → Bytes
  secretbox_open : Bytes → Bytes → Bytes → Option Bytes

structure NaclLibFull extends NaclLib where
  keyPair_pub : Bytes → Bytes

/-- tweetnacl defines `nacl.box(m, n, pk, sk)` as
`nacl.secretbox(m, n, nacl.box.before(pk, sk))`. -/
def NaclLib.box (L : NaclLib) (m n pk sk : Bytes) : Bytes :=
  L.secretbox m n (L.before pk sk)

/-- tweetnacl defines `nacl.box.open(c, n, pk, sk)` as
`nacl.secretbox.open(c, n, nacl.box.before(pk, sk))`. -/
def NaclLib.box_open (L : NaclLib) (c n pk sk : Bytes) : Option Bytes :=
  L.secretbox_open c n (L.before pk sk)

/-- Interface of the tweetnacl-util codecs the client uses. -/
structure NaclUtil where
  encodeBase64 : Bytes → JSStr
  decodeBase64 : JSStr → Bytes
  decodeUTF8 : JSStr → Bytes
  encodeUTF8 : Bytes → JSStr

/-- Documented contract of `nacl.secretbox.open`: opening a box with the
key and nonce it was sealed with returns the original plaintext. -/
def SecretboxRoundtrip (L : NaclLib) : Prop :=
  ∀ m n k, L.secretbox_open (L.secretbox m n k) n k = some m

/-- Documented contract of `nacl.secretbox.open`: authentication fails
(returns null) when the box is opened with a different key. -/
def SecretboxRejectsWrongKey (L : NaclLib) : Prop :=
  ∀ m n k k', k ≠ k' → L.secretbox_open (L.secretbox m n k) n k' = none

/-- X25519 Diffie-Hellman symmetry: `before(pubOf a, b) = before(pubOf b, a)`
for all secret keys `a`, `b`. -/
def DhSymmetric (L : NaclLibFull) : Prop :=
  ∀ a b, L.before (L.keyPair_pub a) b = L.before (L.keyPair_pub b) a

/-- Contract of the tweetnacl-util base64 codec: decoding inverts encoding. -/
def Base64Roundtrip (U : NaclUtil) : Prop :=
  ∀ bs, U.decodeBase64 (U.encodeBase64 bs) = bs

/-- Contract of the tweetnacl-util UTF-8 codec: `encodeUTF8` (bytes to
string) inverts `decodeUTF8` (string to bytes). -/
def Utf8Roundtrip (U : NaclUtil) : Prop :=
  ∀ s, U.encodeUTF8 (U.decodeUTF8 s) = s

/-! ### Client crypto functions (KEY_MANAGEMENT_FIX.md, App component) -/

/-- A key pair as returned by `generateKeyPair` (base64 strings); the `raw`
field of the source object is omitted, it is never read by the code under
verification. -/
structure KeyPair where
  publicKey : JSStr
  secretKey : JSStr
deriving DecidableEq, Repr

/-- `generateKeyPair` (line 656): `nacl.box.keyPair()` draws a random
secret key `skRand` and pairs it with `keyPair_pub skRand`; both halves are
returned base64-encoded. -/
def generateKeyPair (L : NaclLibFull) (U : NaclUtil) (skRand : Bytes) : KeyPair :=
  { publicKey := U.encodeBase64 (L.keyPair_pub skRand)
    secretKey := U.encodeBase64 skRand }

/-- The loop body of `createNonce` (lines 672-675), run for `i = 7` down to
`0`: cell `i` receives `c & 0xff` and `c` becomes `Math.floor(c / 256)`.
`counterBytesGo n c` is the list of cells `8 - n, ..., 7` after the loop. -/
def counterBytesGo : Nat → Nat → Bytes
  | 0, _ => []
  | n + 1, c => counterBytesGo n (c / 256) ++ [c % 256]

/-- The 8-byte array `counterBytes` built by `createNonce`. -/
def counterBytes8 (c : Nat) : Bytes :=
  counterBytesGo 8 c

/-- `Uint8Array.prototype.set(src, offset)`: overwrite `dst` with `src`
starting at `offset` (the code only calls it in range). -/
def typedArraySet (dst src : List Nat) (offset : Nat) : List Nat :=
  dst.take offset ++ src ++ dst.drop (offset + src.length)

/-- `createNonce` (line 666): a zeroed 24-byte array receives 16 random
bytes at offset 0 and the 8 counter bytes at offset 16.  The call
`nacl.randomBytes(16)` is modelled by the argument `randomPart`. -/
def createNonce (randomPart : Bytes) (counter : Nat) : Bytes :=
  let nonce := List.replicate 24 0
  let nonce := typedArraySet nonce randomPart 0
  let counterBytes := counterBytes8 counter
  typedArraySet nonce counterBytes 16

/-- `generateSharedKey` (line 681): 32 fresh random bytes, modelled by the
argument. -/
def generateSharedKey (rand : Bytes) : Bytes :=
  rand

/-- Result shape of `encryptSharedKey`. -/
structure EncryptedSharedKey where
  encryptedSharedKey : JSStr
  nonce : JSStr
deriving DecidableEq, Repr

/-- `encryptSharedKey` (line 686): seal the shared key with `nacl.box`
under a fresh random 24-byte nonce (argument `nonceRand`); the public and
secret keys arrive base64-encoded. -/
def encryptSharedKey (L : NaclLib) (U : NaclUtil) (sharedKeyBytes : Bytes)
    (recipientPublicKey mySecretKey : JSStr) (nonceRand : Bytes) : EncryptedSharedKey :=
  let nonce := nonceRand
  let recipientPubKeyBytes := U.decodeBase64 recipientPublicKey
  let mySecretKeyBytes := U.decodeBase64 mySecretKey
  let encrypted := L.box sharedKeyBytes nonce recipientPubKeyBytes mySecretKeyBytes
  { encryptedSharedKey := U.encodeBase64 encrypted
    nonce := U.encodeBase64 nonce }

/-- `decryptSharedKey` (line 703): open with `nacl.box.open`; a null result
becomes the thrown error. -/
def decryptSharedKey (L : NaclLib) (U : NaclUtil)
    (encryptedBase64 nonceBase64 senderPublicKey mySecretKey : JSStr) :
    Except String Bytes :=
  let encrypted := U.decodeBase64 encryptedBase64
  let nonce := U.decodeBase64 nonceBase64
  let senderPubKeyBytes := U.decodeBase64 senderPublicKey
  let mySecretKeyBytes := U.decodeBase64 mySecretKey
  match L.box_open encrypted nonce senderPubKeyBytes mySecretKeyBytes with
  | none => Except.error "Không thể giải mã sharedKey"
  | some decrypted => Except.ok decrypted

/-- Result shape of `encryptMessage`. -/
structure EncryptedMessage where
  encryptedContent : JSStr
  nonce : JSStr
deriving DecidableEq, Repr

/-- `encryptMessage` (line 724): nonce from `createNonce(counter)` (its 16
random bytes passed as `randomPart`), plaintext UTF-8 encoded, sealed with
`nacl.secretbox`, both outputs base64-encoded. -/
def encryptMessage (L : NaclLib) (U : NaclUtil) (message : JSStr)
    (sharedKeyBytes : Bytes) (counter : Nat) (randomPart : Bytes) : EncryptedMessage :=
  let nonce := createNonce randomPart counter
  let messageBytes := U.decodeUTF8 message
  let encrypted := L.secretbox messageBytes nonce sharedKeyBytes
  { encryptedContent := U.encodeBase64 encrypted
    nonce := U.encodeBase64 nonce }

/-- `decryptMessage` (line 735): base64-decode, open with
`nacl.secretbox.open`, throw on null, UTF-8 decode on success. -/
def decryptMessage (L : NaclLib) (U : NaclUtil)
    (encryptedBase64 nonceBase64 : JSStr) (sharedKeyBytes : Bytes) :
    Except String JSStr :=
  let encrypted := U.decodeBase64 encryptedBase64
  let nonce := U.decodeBase64 nonceBase64
  match L.secretbox_open encrypted nonce sharedKeyBytes with
  | none => Except.error "Không thể giải mã tin nhắn"
  | some decrypted => Except.ok (U.encodeUTF8 decrypted)

/-- Result shape of `encryptPrivateKey`. -/
structure EncryptedPrivateKey where
  encryptedPrivateKey : JSStr
  nonce : JSStr
deriving DecidableEq, Repr

/-- `encryptPrivateKey` (line 780): seal the secret key under the
password-derived master key with `nacl.secretbox` and a fresh random nonce
(argument `nonceRand`). -/
def encryptPrivateKey (L : NaclLib) (U : NaclUtil)
    (privateKeyBytes masterKeyBytes nonceRand : Bytes) : EncryptedPrivateKey :=
  let nonce := nonceRand
  let encrypted := L.secretbox privateKeyBytes nonce masterKeyBytes
  { encryptedPrivateKey := U.encodeBase64 encrypted
    nonce := U.encodeBase64 nonce }

/-- `decryptPrivateKey` (line 790): open the backup; a null result is
reported as the wrong-password error. -/
def decryptPrivateKey (L : NaclLib) (U : NaclUtil)
    (encryptedBase64 nonceBase64 : JSStr) (masterKeyBytes : Bytes) :
    Except String Bytes :=
  let encrypted := U.decodeBase64 encryptedBase64
  let nonce := U.decodeBase64 nonceBase64
  match L.secretbox_open encrypted nonce masterKeyBytes with
  | none => Except.error "Sai password - không thể giải mã private key"
  | some decrypted => Except.ok decrypted

/-- `deriveSharedKey` (line 1586, Strategy-B client): base64-decode both
keys and call `nacl.box.before`. -/
def deriveSharedKey (L : NaclLib) (U : NaclUtil)
    (theirPublicKey mySecretKey : JSStr) : Bytes :=
  let theirPubKeyBytes := U.decodeBase64 theirPublicKey
  let mySecretKeyBytes := U.decodeBase64 mySecretKey
  L.before theirPubKeyBytes mySecretKeyBytes

/-! ### Frontend chat state machine (KEY_MANAGEMENT_FIX.md, App component) -/

/-- One entry of the decrypted message list built by `loadMessages`
(lines 1210-1215); `time` keeps the raw timestamp that the source formats
with `toLocaleTimeString`. -/
structure DisplayMessage where
  text : JSStr
  sender : JSStr
  isMine : Bool
  time : Nat
deriving DecidableEq, Repr

/-- A message document as returned by
`GET /api/chat/:chatId/messages` (sender populated with its username). -/
structure ServerMessage where
  encryptedContent : JSStr
  nonce : JSStr
  senderId : Nat
  senderUsername : JSStr
  messageCounter : Nat
  timestamp : Nat
deriving DecidableEq, Repr

/-- The `for (const msg of messagesReversed)` loop of `loadMessages`
(lines 1202-1223): when a shared key is present, try to decrypt and append
the decrypted entry, skipping the message when decryption throws; in every
iteration (decryptable or not) bump the counter ref to
`msg.messageCounter + 1` when `msg.messageCounter >= counter`.  Returns the
`decryptedMessages` list and the final counter ref value. -/
def processBatch (L : NaclLib) (U : NaclUtil) (sharedKey : Option Bytes)
    (currentUserId : Nat) : List ServerMessage → Nat → List DisplayMessage × Nat
  | [], counter => ([], counter)
  | msg :: rest, counter =>
    let decoded : List DisplayMessage :=
      match sharedKey with
      | some key =>
        match decryptMessage L U msg.encryptedContent msg.nonce key with
        | Except.ok plaintext =>
          [{ text := plaintext
             sender := msg.senderUsername
             isMine := msg.senderId == currentUserId
             time := msg.timestamp }]
        | Except.error _ => []
      | none => []
    let counter' := if msg.messageCounter ≥ counter then msg.messageCounter + 1 else counter
    let result := processBatch L U sharedKey currentUserId rest counter'
    (decoded ++ result.1, result.2)

/-- `loadMessages` (lines 1181-1247), restricted to the state it reads and
writes: the backend returns the batch in descending `_id` order, the loop
walks the reversed batch, and the new message list either replaces the old
one (initial load) or is prepended to it (`isLoadingMore`).  Returns the
new `messages` state and the new `messageCounterRef` value. -/
def loadMessages (L : NaclLib) (U : NaclUtil) (sharedKey : Option Bytes)
    (currentUserId : Nat) (prevMessages : List DisplayMessage)
    (messageCounter : Nat) (fetchedDescending : List ServerMessage)
    (isLoadingMore : Bool) : List DisplayMessage × Nat :=
  let messagesReversed := fetchedDescending.reverse
  let result := processBatch L U sharedKey currentUserId messagesReversed messageCounter
  let messages := if isLoadingMore then result.1 ++ prevMessages else result.1
  (messages, result.2)

/-- JavaScript whitespace (WhiteSpace plus LineTerminator productions),
the set stripped by `String.prototype.trim`. -/
def isJsWhitespace (c : Nat) : Bool :=
  c == 0x9 || c == 0xA || c == 0xB || c == 0xC || c == 0xD || c == 0x20 ||
  c == 0xA0 || c == 0x1680 || (0x2000 ≤ c && c ≤ 0x200A) ||
  c == 0x2028 || c == 0x2029 || c == 0x202F || c == 0x205F ||
  c == 0x3000 || c == 0xFEFF

/-- `String.prototype.trim`: drop leading and trailing whitespace. -/
def jsTrim (s : JSStr) : JSStr :=
  ((s.dropWhile isJsWhitespace).reverse.dropWhile isJsWhitespace).reverse

/-- Payload of the `send_message` socket emit (lines 1300-1306). -/
structure SendMessagePayload where
  chatId : Nat
  senderId : Nat
  encryptedContent : JSStr
  nonce : JSStr
  messageCounter : Nat
deriving DecidableEq, Repr

/-- The slice of the App state that `sendMessage` reads and writes:
`messageInput`, `sharedKeyRef.current`, `currentChat` (its `_id`), and
`messageCounterRef.current`. -/
structure AppState where
  messageInput : JSStr
  sharedKey : Option Bytes
  currentChat : Option Nat
  messageCounter : Nat
deriving DecidableEq, Repr

/-- `sendMessage` (lines 1289-1310): bail out unchanged unless the trimmed
input is non-empty, a shared key is cached and a chat is open; otherwise
encrypt the trimmed input under the current counter, emit the payload
carrying that counter value, then increment the counter and clear the
input.  The 16 random nonce bytes drawn inside `encryptMessage` are passed
as `randomPart`. -/
def sendMessage (L : NaclLib) (U : NaclUtil) (st : AppState)
    (currentUserId : Nat) (randomPart : Bytes) :
    AppState × Option SendMessagePayload :=
  match st.sharedKey, st.currentChat with
  | some sharedKey, some chatId =>
    if jsTrim st.messageInput = [] then (st, none)
    else
      let e := encryptMessage L U (jsTrim st.messageInput) sharedKey st.messageCounter randomPart
      ({ st with messageCounter := st.messageCounter + 1, messageInput := [] },
       some { chatId := chatId
              senderId := currentUserId
              encryptedContent := e.encryptedContent
              nonce := e.nonce
              messageCounter := st.messageCounter })
  | _, _ => (st, none)

/-- Payload of a `key_exchange` socket event (lines 1158-1173 client side,
line 342 server side). -/
structure KeyExchangePayload where
  chatId : Nat
  recipientId : Nat
  senderId : Nat
  encryptedSharedKey : JSStr
  nonce : JSStr
deriving DecidableEq, Repr

/-- Result of `createAndShareKey` (lines 1139-1177): the generated shared
key kept in `sharedKeyRef`, and the two emitted `key_exchange` payloads
(one grant for the partner, one self-grant). -/
structure ShareKeyResult where
  sharedKey : Bytes
  partnerPayload : KeyExchangePayload
  myPayload : KeyExchangePayload
deriving DecidableEq, Repr

/-- `createAndShareKey` (lines 1139-1177): generate a fresh shared key,
seal it once for the partner (their public key, my secret key) and once
for myself (my public key, my secret key), and emit both grants.  The
random draws (`generateSharedKey`, the two box nonces) are arguments. -/
def createAndShareKey (L : NaclLib) (U : NaclUtil) (chatId : Nat)
    (partnerId : Nat) (partnerPublicKey : JSStr) (currentUserId : Nat)
    (myPublicKey mySecretKey : JSStr)
    (sharedKeyRand nonceRand1 nonceRand2 : Bytes) : ShareKeyResult :=
  let sharedKey := generateSharedKey sharedKeyRand
  let partnerKey := encryptSharedKey L U sharedKey partnerPublicKey mySecretKey nonceRand1
  let myKey := encryptSharedKey L U sharedKey myPublicKey mySecretKey nonceRand2
  { sharedKey := sharedKey
    partnerPayload :=
      { chatId := chatId
        recipientId := partnerId
        senderId := currentUserId
        encryptedSharedKey := partnerKey.encryptedSharedKey
        nonce := partnerKey.nonce }
    myPayload :=
      { chatId := chatId
        recipientId := currentUserId
        senderId := currentUserId
        encryptedSharedKey := myKey.encryptedSharedKey
        nonce := myKey.nonce } }

/-! ### Backend (backend/app.js) -/

/-- One element of a chat document's `encryptedKeys` array
(chat.model.js / app.js lines 148-153). -/
structure EncryptedKeyEntry where
  recipientId : Nat
  senderId : Nat
  encryptedSharedKey : JSStr
  nonce : JSStr
deriving DecidableEq, Repr

/-- The slice of a chat document the key endpoints read and write. -/
structure ChatDoc where
  participants : List Nat
  encryptedKeys : List EncryptedKeyEntry
deriving DecidableEq, Repr

/-- Response of `GET /api/chat/:chatId/key/:userId` for an existing chat:
either a key entry together with the `isSender` flag, or the 404
"Chưa có key cho user này". -/
inductive KeyQueryResult where
  | found : EncryptedKeyEntry → Bool → KeyQueryResult
  | notFound : KeyQueryResult
deriving DecidableEq, Repr

/-- `GET /api/chat/:chatId/key/:userId` (app.js lines 171-213): first look
for an entry whose `recipientId` is the user (returned with
`isSender: false`); failing that, for an entry whose `senderId` is the
user (returned early with `isSender: true`); failing both, 404. -/
def getChatKey (chat : ChatDoc) (userId : Nat) : KeyQueryResult :=
  match chat.encryptedKeys.find? (fun k => k.recipientId == userId) with
  | some keyData => KeyQueryResult.found keyData false
  | none =>
    match chat.encryptedKeys.find? (fun k => k.senderId == userId) with
    | some keyData => KeyQueryResult.found keyData true
    | none => KeyQueryResult.notFound

/-- Payload of the `key_received` emit the server forwards to the
recipient (app.js lines 365-370). -/
structure KeyReceivedEvent where
  chatId : Nat
  senderId : Nat
  encryptedSharedKey : JSStr
  nonce : JSStr
deriving DecidableEq, Repr

/-- The `key_exchange` socket handler (app.js lines 341-376) for an
existing chat: push the new entry only when no stored entry already has
this `recipientId`, then always forward the key material to the recipient
as a `key_received` event. -/
def keyExchange (chat : ChatDoc) (e : KeyExchangePayload) :
    ChatDoc × KeyReceivedEvent :=
  let existingKey := chat.encryptedKeys.find? (fun k => k.recipientId == e.recipientId)
  let chat' :=
    match existingKey with
    | some _ => chat
    | none =>
      { chat with
        encryptedKeys := chat.encryptedKeys ++
          [{ recipientId := e.recipientId
             senderId := e.senderId
             encryptedSharedKey := e.encryptedSharedKey
             nonce := e.nonce }] }
  (chat',
   { chatId := e.chatId
     senderId := e.senderId
     encryptedSharedKey := e.encryptedSharedKey
     nonce := e.nonce })

/-! ### A concrete instance of the library interfaces

Used to evaluate the theorems on closed inputs: a toy cipher satisfying the
secretbox contracts, a toy commutative key agreement, and identity codecs
(bytes and code-unit strings share the representation `List Nat`). -/

/-- Toy tweetnacl instance: the shared key of two secrets is their
pointwise sum (with the identity as `keyPair_pub`, so agreement is
symmetric), and a box is the plaintext tagged with its length, the nonce
and the key, which opening checks and strips. -/
def toyNacl : NaclLibFull :=
  { before := fun a b => a.zipWith (· + ·) b
    secretbox := fun m n k => m.length :: (m ++ n ++ k)
    secretbox_open := fun c n k =>
      match c with
      | [] => none
      | len :: rest =>
        if rest = rest.take len ++ n ++ k then some (rest.take len) else none
    keyPair_pub := fun sk => sk }

/-- Identity codecs for the toy instance. -/
def toyUtil : NaclUtil :=
  { encodeBase64 := fun bs => bs
    decodeBase64 := fun s => s
    decodeUTF8 := fun s => s
    encodeUTF8 := fun bs => bs }

theorem toyNacl_secretboxRoundtrip : SecretboxRoundtrip toyNacl.toNaclLib := by
  intro m n k
  have htake : (m ++ n ++ k).take m.length = m := by
    rw [List.append_assoc]
    exact List.take_left m (n ++ k)
  simp [SecretboxRoundtrip, toyNacl, htake]

theorem toyNacl_secretboxRejectsWrongKey :
    SecretboxRejectsWrongKey toyNacl.toNaclLib := by
  intro m n k k' hne
  have htake : (m ++ n ++ k).take m.length = m := by
    rw [List.append_assoc]
    exact List.take_left m (n ++ k)
  simp only [SecretboxRejectsWrongKey, toyNacl, htake, ite_eq_right_iff,
    reduceCtorEq, imp_false]
  intro h
  exact hne (List.append_cancel_left (List.append_cancel_left
    (by simpa only [List.append_assoc] using h)))

theorem toyNacl_dhSymmetric : DhSymmetric toyNacl := by
  intro a b
  simpa [toyNacl] using List.zipWith_comm_of_comm (· + ·) Nat.add_comm a b

theorem toyUtil_base64Roundtrip : Base64Roundtrip toyUtil :=
  fun _ => rfl

theorem toyUtil_utf8Roundtrip : Utf8Roundtrip toyUtil :=
  fun _ => rfl

/-! ### Specification-side helpers -/

/-- The 8-byte big-endian encoding of a counter: byte `i` holds
`c / 256 ^ (7 - i) % 256`. -/
def beBytes8 (c : Nat) : Bytes :=
  (List.range 8).map (fun i => c / 256 ^ (7 - i) % 256)

lemma counterBytesGo_eq (n : Nat) :
    ∀ c, counterBytesGo n c =
      (List.range n).map (fun i => c / 256 ^ (n - 1 - i) % 256) := by
  induction n with
  | zero => intro c; rfl
  | succ n ih =>
    intro c
    rw [counterBytesGo, ih (c / 256), List.range_succ, List.map_append]
    have h2 : (List.range n).map (fun i => c / 256 / 256 ^ (n - 1 - i) % 256)
        = (List.range n).map (fun i => c / 256 ^ (n + 1 - 1 - i) % 256) := by
      apply List.map_congr_left
      intro i hi
      have hi' : i < n := List.mem_range.mp hi
      have hexp : n - i = (n - 1 - i) + 1 := by omega
      have h256 : (256 : Nat) * 256 ^ (n - 1 - i) = 256 ^ (n - i) := by
        rw [hexp, pow_succ']
      have hidx : n + 1 - 1 - i = n - i := by omega
      rw [Nat.div_div_eq_div_mul, h256, hidx]
    have h3 : List.map (fun i => c / 256 ^ (n + 1 - 1 - i) % 256) [n] = [c % 256] := by
      have hidx : n + 1 - 1 - n = 0 := by omega
      simp [hidx]
    rw [h2, h3]

lemma counterBytes8_eq_beBytes8 (c : Nat) : counterBytes8 c = beBytes8 c := by
  rw [counterBytes8, counterBytesGo_eq, beBytes8]

lemma counterBytes8_length (c : Nat) : (counterBytes8 c).length = 8 := by
  rw [counterBytes8_eq_beBytes8, beBytes8]
  simp

lemma createNonce_eq (randomPart : Bytes) (counter : Nat)
    (hlen : randomPart.length = 16) :
    createNonce randomPart counter = randomPart ++ counterBytes8 counter := by
  rw [createNonce, typedArraySet, typedArraySet]
  simp only [List.take_zero, List.nil_append, Nat.zero_add, hlen]
  have hdrop16 : (List.replicate 24 (0 : Nat)).drop 16 = List.replicate 8 0 := by
    decide
  rw [hdrop16]
  have hlen24 : (randomPart ++ List.replicate 8 (0 : Nat)).length = 24 := by
    simp [hlen]
  have htake : (randomPart ++ List.replicate 8 (0 : Nat)).take 16 = randomPart := by
    rw [← hlen]
    exact List.take_left randomPart (List.replicate 8 0)
  have hdrop : (randomPart ++ List.replicate 8 (0 : Nat)).drop
      (16 + (counterBytes8 counter).length) = [] := by
    apply List.drop_eq_nil_of_le
    rw [hlen24, counterBytes8_length]
  rw [htake, hdrop, List.append_nil]

/-! ### Claim theorems -/

/-- C1: for every two key pairs A and B produced by `generateKeyPair`, the
shared key derived from A's view (B's public key, A's secret key) equals
the one derived from B's view (A's public key, B's secret key), bit for
bit — given the X25519 Diffie-Hellman symmetry contract of
`nacl.box.before` and the base64 round-trip contract. -/
theorem deriveSharedKey_symmetric (L : NaclLibFull) (U : NaclUtil)
    (aSec bSec : Bytes) (hdh : DhSymmetric L) (hb64 : Base64Roundtrip U) :
    deriveSharedKey L.toNaclLib U (generateKeyPair L U bSec).publicKey
      (generateKeyPair L U aSec).secretKey =
    deriveSharedKey L.toNaclLib U (generateKeyPair L U aSec).publicKey
      (generateKeyPair L U bSec).secretKey := by
  have hb : ∀ bs, U.decodeBase64 (U.encodeBase64 bs) = bs := hb64
  simp only [deriveSharedKey, generateKeyPair, hb]
  exact hdh bSec aSec

theorem deriveSharedKey_symmetric_witness :
    deriveSharedKey toyNacl.toNaclLib toyUtil
      (generateKeyPair toyNacl toyUtil [2, 3]).publicKey
      (generateKeyPair toyNacl toyUtil [5, 7]).secretKey =
    deriveSharedKey toyNacl.toNaclLib toyUtil
      (generateKeyPair toyNacl toyUtil [5, 7]).publicKey
      (generateKeyPair toyNacl toyUtil [2, 3]).secretKey :=
  deriveSharedKey_symmetric toyNacl toyUtil [5, 7] [2, 3]
    toyNacl_dhSymmetric toyUtil_base64Roundtrip

/-- C2: wrapping a secret key under the master key derived from a password
and unwrapping with the master key derived from the same password returns
the original secret-key bytes; unwrapping with the master key derived from
any other password (one whose derived key differs, as PBKDF2 guarantees up
to collisions) yields the wrong-password error and no plaintext — given
the secretbox round-trip and authentication contracts and the base64
round-trip. -/
theorem decryptPrivateKey_password_check (L : NaclLib) (U : NaclUtil)
    (kdf : JSStr → Bytes → Bytes) (secretKey : Bytes)
    (pw wrongPw salt : JSStr) (nonceRand : Bytes)
    (hrt : SecretboxRoundtrip L) (hwk : SecretboxRejectsWrongKey L)
    (hb64 : Base64Roundtrip U) (hkdf : kdf pw salt ≠ kdf wrongPw salt) :
    decryptPrivateKey L U
        (encryptPrivateKey L U secretKey (kdf pw salt) nonceRand).encryptedPrivateKey
        (encryptPrivateKey L U secretKey (kdf pw salt) nonceRand).nonce
        (kdf pw salt) = Except.ok secretKey ∧
    decryptPrivateKey L U
        (encryptPrivateKey L U secretKey (kdf pw salt) nonceRand).encryptedPrivateKey
        (encryptPrivateKey L U secretKey (kdf pw salt) nonceRand).nonce
        (kdf wrongPw salt) =
      Except.error "Sai password - không thể giải mã private key" := by
  have hb : ∀ bs, U.decodeBase64 (U.encodeBase64 bs) = bs := hb64
  constructor
  · simp [encryptPrivateKey, decryptPrivateKey, hb, hrt secretKey nonceRand (kdf pw salt)]
  · simp [encryptPrivateKey, decryptPrivateKey, hb,
      hwk secretKey nonceRand (kdf pw salt) (kdf wrongPw salt) hkdf]

theorem decryptPrivateKey_password_check_witness :
    decryptPrivateKey toyNacl.toNaclLib toyUtil
        (encryptPrivateKey toyNacl.toNaclLib toyUtil [9, 8]
          ((fun p _ => p) [1] [0]) [4]).encryptedPrivateKey
        (encryptPrivateKey toyNacl.toNaclLib toyUtil [9, 8]
          ((fun p _ => p) [1] [0]) [4]).nonce
        ((fun p _ => p) [1] [0]) = Except.ok [9, 8] ∧
    decryptPrivateKey toyNacl.toNaclLib toyUtil
        (encryptPrivateKey toyNacl.toNaclLib toyUtil [9, 8]
          ((fun p _ => p) [1] [0]) [4]).encryptedPrivateKey
        (encryptPrivateKey toyNacl.toNaclLib toyUtil [9, 8]
          ((fun p _ => p) [1] [0]) [4]).nonce
        ((fun p _ => p) [2] [0]) =
      Except.error "Sai password - không thể giải mã private key" :=
  decryptPrivateKey_password_check toyNacl.toNaclLib toyUtil
    (fun p _ => p) [9, 8] [1] [2] [0] [4]
    toyNacl_secretboxRoundtrip toyNacl_secretboxRejectsWrongKey
    toyUtil_base64Roundtrip (by decide)

/-- C3: for every plaintext string, every shared key and every counter
value, decrypting what `encryptMessage` produced — its `encryptedContent`
with its `nonce` under the same key — returns the original plaintext,
given the secretbox, base64 and UTF-8 round-trip contracts. -/
theorem decryptMessage_roundtrip (L : NaclLib) (U : NaclUtil)
    (message : JSStr) (key : Bytes) (counter : Nat) (randomPart : Bytes)
    (hrt : SecretboxRoundtrip L) (hb64 : Base64Roundtrip U)
    (hutf8 : Utf8Roundtrip U) :
    decryptMessage L U
      (encryptMessage L U message key counter randomPart).encryptedContent
      (encryptMessage L U message key counter randomPart).nonce
      key = Except.ok message := by
  have hb : ∀ bs, U.decodeBase64 (U.encodeBase64 bs) = bs := hb64
  have hu : ∀ s, U.encodeUTF8 (U.decodeUTF8 s) = s := hutf8
  simp [encryptMessage, decryptMessage, hb,
    hrt (U.decodeUTF8 message) (createNonce randomPart counter) key, hu]

theorem decryptMessage_roundtrip_witness :
    decryptMessage toyNacl.toNaclLib toyUtil
      (encryptMessage toyNacl.toNaclLib toyUtil [104, 105]
        (List.replicate 32 7) 0 (List.replicate 16 3)).encryptedContent
      (encryptMessage toyNacl.toNaclLib toyUtil [104, 105]
        (List.replicate 32 7) 0 (List.replicate 16 3)).nonce
      (List.replicate 32 7) = Except.ok [104, 105] :=
  decryptMessage_roundtrip toyNacl.toNaclLib toyUtil [104, 105]
    (List.replicate 32 7) 0 (List.replicate 16 3)
    toyNacl_secretboxRoundtrip toyUtil_base64Roundtrip toyUtil_utf8Roundtrip

/-- C4: for every counter in the uint64 range, `createNonce` returns a
24-byte nonce whose first 16 bytes are the freshly drawn random bytes and
whose last 8 bytes are the 8-byte big-endian encoding of the counter. -/
theorem createNonce_layout (randomPart : Bytes) (counter : Nat)
    (hlen : randomPart.length = 16) (hc : counter < 2 ^ 64) :
    (createNonce randomPart counter).length = 24 ∧
    (createNonce randomPart counter).take 16 = randomPart ∧
    (createNonce randomPart counter).drop 16 = beBytes8 counter := by
  rw [createNonce_eq randomPart counter hlen]
  refine ⟨?_, ?_, ?_⟩
  · simp [hlen, counterBytes8_length]
  · rw [← hlen]
    exact List.take_left randomPart (counterBytes8 counter)
  · rw [← counterBytes8_eq_beBytes8, ← hlen]
    exact List.drop_left randomPart (counterBytes8 counter)

theorem createNonce_layout_witness :
    (createNonce (List.replicate 16 1) 5).length = 24 ∧
    (createNonce (List.replicate 16 1) 5).take 16 = List.replicate 16 1 ∧
    (createNonce (List.replicate 16 1) 5).drop 16 = beBytes8 5 :=
  createNonce_layout (List.replicate 16 1) 5 (by decide) (by norm_num)

/-- C5: Strategy-A self-recovery — when `createAndShareKey` generates a
fresh shared secret and stores a self-grant sealed with the creator's own
public and secret keys, opening that grant with `decryptSharedKey`, using
the creator's own public key as the sender key and the creator's secret
key, returns the generated secret — given the secretbox and base64
round-trip contracts. -/
theorem createAndShareKey_selfRecovery (L : NaclLib) (U : NaclUtil)
    (chatId partnerId currentUserId : Nat)
    (partnerPublicKey myPublicKey mySecretKey : JSStr)
    (sharedKeyRand nonceRand1 nonceRand2 : Bytes)
    (hrt : SecretboxRoundtrip L) (hb64 : Base64Roundtrip U) :
    decryptSharedKey L U
      (createAndShareKey L U chatId partnerId partnerPublicKey currentUserId
        myPublicKey mySecretKey sharedKeyRand nonceRand1 nonceRand2).myPayload.encryptedSharedKey
      (createAndShareKey L U chatId partnerId partnerPublicKey currentUserId
        myPublicKey mySecretKey sharedKeyRand nonceRand1 nonceRand2).myPayload.nonce
      myPublicKey mySecretKey =
    Except.ok (createAndShareKey L U chatId partnerId partnerPublicKey currentUserId
      myPublicKey mySecretKey sharedKeyRand nonceRand1 nonceRand2).sharedKey := by
  have hb : ∀ bs, U.decodeBase64 (U.encodeBase64 bs) = bs := hb64
  simp [createAndShareKey, generateSharedKey, encryptSharedKey, decryptSharedKey,
    NaclLib.box, NaclLib.box_open, hb,
    hrt sharedKeyRand nonceRand2 (L.before (U.decodeBase64 myPublicKey) (U.decodeBase64 mySecretKey))]

theorem createAndShareKey_selfRecovery_witness :
    decryptSharedKey toyNacl.toNaclLib toyUtil
      (createAndShareKey toyNacl.toNaclLib toyUtil 1 2 [11, 12] 3
        [21, 22] [31, 32] [41, 42] [51] [52]).myPayload.encryptedSharedKey
      (createAndShareKey toyNacl.toNaclLib toyUtil 1 2 [11, 12] 3
        [21, 22] [31, 32] [41, 42] [51] [52]).myPayload.nonce
      [21, 22] [31, 32] =
    Except.ok (createAndShareKey toyNacl.toNaclLib toyUtil 1 2 [11, 12] 3
      [21, 22] [31, 32] [41, 42] [51] [52]).sharedKey :=
  createAndShareKey_selfRecovery toyNacl.toNaclLib toyUtil 1 2 3
    [11, 12] [21, 22] [31, 32] [41, 42] [51] [52]
    toyNacl_secretboxRoundtrip toyUtil_base64Roundtrip

lemma find?_eq_head?_filter {α : Type} (p : α → Bool) (l : List α) :
    l.find? p = (l.filter p).head? := by
  induction l with
  | nil => rfl
  | cons a t ih =>
    by_cases h : p a
    · simp [List.find?_cons, List.filter_cons, h]
    · simp only [List.find?_cons, List.filter_cons, h, Bool.false_eq_true,
        ite_false, cond_false]
      exact ih

/-- C6: Strategy-A key retrieval for an existing chat — if any stored
encrypted-key entry has `recipientId` equal to the user, the endpoint
returns the first such entry flagged `isSender = false`; otherwise, if any
entry has `senderId` equal to the user, it returns the first such entry
flagged `isSender = true`; otherwise it returns the 404 not-found result.
Stated as an exhaustive case description, so no other outcome is
possible. -/
theorem getChatKey_cases (chat : ChatDoc) (userId : Nat) :
    getChatKey chat userId =
      match (chat.encryptedKeys.filter (fun k => k.recipientId == userId)).head? with
      | some k => KeyQueryResult.found k false
      | none =>
        match (chat.encryptedKeys.filter (fun k => k.senderId == userId)).head? with
        | some k => KeyQueryResult.found k true
        | none => KeyQueryResult.notFound := by
  rw [getChatKey, find?_eq_head?_filter, find?_eq_head?_filter]

/-- C7: `sendMessage` increments the per-chat send counter by exactly 1
when the trimmed input is non-empty, a shared key is cached and a chat is
open — and the emitted payload carries the pre-increment counter value,
i.e. the increment happens only after the message is encrypted; when any
of those preconditions fails, the whole state is left unchanged and
nothing is emitted. -/
theorem sendMessage_counterDiscipline (L : NaclLib) (U : NaclUtil)
    (st : AppState) (currentUserId : Nat) (randomPart : Bytes) :
    (jsTrim st.messageInput ≠ [] ∧ st.sharedKey.isSome ∧ st.currentChat.isSome →
      (sendMessage L U st currentUserId randomPart).1.messageCounter =
          st.messageCounter + 1 ∧
      ∃ p, (sendMessage L U st currentUserId randomPart).2 = some p ∧
        p.messageCounter = st.messageCounter) ∧
    (¬ (jsTrim st.messageInput ≠ [] ∧ st.sharedKey.isSome ∧ st.currentChat.isSome) →
      sendMessage L U st currentUserId randomPart = (st, none)) := by
  constructor
  · rintro ⟨hin, hsk, hcc⟩
    rcases hsk1 : st.sharedKey with _ | sk
    · rw [hsk1] at hsk; simp at hsk
    rcases hcc1 : st.currentChat with _ | cid
    · rw [hcc1] at hcc; simp at hcc
    simp only [sendMessage, hsk1, hcc1]
    rw [if_neg hin]
    exact ⟨rfl, ⟨_, rfl, rfl⟩⟩
  · intro hng
    rcases hsk1 : st.sharedKey with _ | sk
    · simp [sendMessage, hsk1]
    rcases hcc1 : st.currentChat with _ | cid
    · simp [sendMessage, hsk1, hcc1]
    · have hin : jsTrim st.messageInput = [] := by
        by_contra hne
        exact hng ⟨hne, by simp [hsk1], by simp [hcc1]⟩
      simp [sendMessage, hsk1, hcc1, hin]

theorem sendMessage_counterDiscipline_witness :
    (sendMessage toyNacl.toNaclLib toyUtil
      { messageInput := [104, 105]
        sharedKey := some (List.replicate 32 7)
        currentChat := some 9
        messageCounter := 4 } 1 (List.replicate 16 3)).1.messageCounter = 4 + 1 ∧
    ∃ p, (sendMessage toyNacl.toNaclLib toyUtil
      { messageInput := [104, 105]
        sharedKey := some (List.replicate 32 7)
        currentChat := some 9
        messageCounter := 4 } 1 (List.replicate 16 3)).2 = some p ∧
      p.messageCounter = 4 :=
  (sendMessage_counterDiscipline toyNacl.toNaclLib toyUtil
      { messageInput := [104, 105]
        sharedKey := some (List.replicate 32 7)
        currentChat := some 9
        messageCounter := 4 } 1 (List.replicate 16 3)).1
    ⟨by decide, by decide, by decide⟩

/-- The value the counter ref grows to from a batch alone: one more than
the highest `messageCounter` in the batch (0 for an empty batch). -/
def batchMaxNext (l : List ServerMessage) : Nat :=
  l.foldr (fun m r => max (m.messageCounter + 1) r) 0

lemma processBatch_counter (L : NaclLib) (U : NaclUtil)
    (sharedKey : Option Bytes) (uid : Nat) :
    ∀ (l : List ServerMessage) (ctr : Nat),
      (processBatch L U sharedKey uid l ctr).2 = max ctr (batchMaxNext l) := by
  intro l
  induction l with
  | nil => intro ctr; simp [processBatch, batchMaxNext]
  | cons m rest ih =>
    intro ctr
    simp only [processBatch, batchMaxNext, List.foldr_cons]
    rw [ih]
    rcases Nat.lt_or_ge m.messageCounter ctr with h | h
    · rw [if_neg (by omega)]
      show max ctr (batchMaxNext rest) = _
      rw [batchMaxNext]
      omega
    · rw [if_pos (by omega)]
      show max (m.messageCounter + 1) (batchMaxNext rest) = _
      rw [batchMaxNext]
      omega

lemma batchMaxNext_append (l₁ l₂ : List ServerMessage) :
    batchMaxNext (l₁ ++ l₂) = max (batchMaxNext l₁) (batchMaxNext l₂) := by
  induction l₁ with
  | nil => simp [batchMaxNext]
  | cons m rest ih =>
    simp only [batchMaxNext, List.cons_append, List.foldr_cons] at ih ⊢
    rw [ih]
    omega

lemma batchMaxNext_lt (m : ServerMessage) :
    ∀ l : List ServerMessage, m ∈ l → m.messageCounter < batchMaxNext l := by
  intro l
  induction l with
  | nil => intro hm; cases hm
  | cons a rest ih =>
    intro hm
    rcases List.mem_cons.mp hm with h | h
    · subst h
      simp only [batchMaxNext, List.foldr_cons]
      omega
    · have hr := ih h
      simp only [batchMaxNext, List.foldr_cons] at hr ⊢
      omega

lemma batchMaxNext_reverse (l : List ServerMessage) :
    batchMaxNext l.reverse = batchMaxNext l := by
  induction l with
  | nil => rfl
  | cons m rest ih =>
    rw [List.reverse_cons, batchMaxNext_append, ih]
    simp only [batchMaxNext, List.foldr_cons, List.foldr_nil]
    omega

/-- C8: after `loadMessages` processes a fetched batch, the counter ref
equals the maximum of its previous value and one more than the highest
`messageCounter` seen in the batch; in particular it is strictly greater
than every `messageCounter` in the batch and never decreases. -/
theorem loadMessages_counterRecompute (L : NaclLib) (U : NaclUtil)
    (sharedKey : Option Bytes) (currentUserId : Nat)
    (prevMessages : List DisplayMessage) (messageCounter : Nat)
    (fetchedDescending : List ServerMessage) (isLoadingMore : Bool) :
    (loadMessages L U sharedKey currentUserId prevMessages messageCounter
        fetchedDescending isLoadingMore).2 =
      max messageCounter (batchMaxNext fetchedDescending) ∧
    (∀ m ∈ fetchedDescending,
      m.messageCounter < (loadMessages L U sharedKey currentUserId prevMessages
        messageCounter fetchedDescending isLoadingMore).2) ∧
    messageCounter ≤ (loadMessages L U sharedKey currentUserId prevMessages
      messageCounter fetchedDescending isLoadingMore).2 := by
  have hcounter : (loadMessages L U sharedKey currentUserId prevMessages
      messageCounter fetchedDescending isLoadingMore).2 =
      max messageCounter (batchMaxNext fetchedDescending) := by
    rw [loadMessages]
    simp only [processBatch_counter, batchMaxNext_reverse]
  refine ⟨hcounter, ?_, ?_⟩
  · intro m hm
    rw [hcounter]
    have hlt := batchMaxNext_lt m fetchedDescending hm
    omega
  · rw [hcounter]
    omega

/-- A sample fetched message (only its counter matters here). -/
def sampleServerMessage : ServerMessage :=
  { encryptedContent := [3], nonce := [4], senderId := 2,
    senderUsername := [65], messageCounter := 5, timestamp := 100 }

theorem loadMessages_counterRecompute_witness :
    sampleServerMessage.messageCounter <
      (loadMessages toyNacl.toNaclLib toyUtil none 1 [] 0
        [sampleServerMessage] false).2 :=
  (loadMessages_counterRecompute toyNacl.toNaclLib toyUtil none 1 [] 0
      [sampleServerMessage] false).2.1 sampleServerMessage (by decide)

/-- C9: during a history load with a shared key present, a message whose
decryption fails is skipped and every other message of the batch is
decrypted and kept in order: the produced list is exactly the decryptable
messages of the (chronologically reversed) batch, prepended unchanged to
the previous list when loading more, and the load never aborts. -/
theorem loadMessages_skipUndecryptable (L : NaclLib) (U : NaclUtil)
    (key : Bytes) (currentUserId : Nat) (prevMessages : List DisplayMessage)
    (messageCounter : Nat) (fetchedDescending : List ServerMessage)
    (isLoadingMore : Bool) :
    (loadMessages L U (some key) currentUserId prevMessages messageCounter
        fetchedDescending isLoadingMore).1 =
      fetchedDescending.reverse.filterMap (fun m =>
        match decryptMessage L U m.encryptedContent m.nonce key with
        | Except.ok plaintext => some
            { text := plaintext
              sender := m.senderUsername
              isMine := m.senderId == currentUserId
              time := m.timestamp }
        | Except.error _ => none) ++
      (if isLoadingMore then prevMessages else []) := by
  rw [loadMessages]
  have hbatch : ∀ (l : List ServerMessage) (ctr : Nat),
      (processBatch L U (some key) currentUserId l ctr).1 =
        l.filterMap (fun m =>
          match decryptMessage L U m.encryptedContent m.nonce key with
          | Except.ok plaintext => some
              { text := plaintext
                sender := m.senderUsername
                isMine := m.senderId == currentUserId
                time := m.timestamp }
          | Except.error _ => none) := by
    intro l
    induction l with
    | nil => intro ctr; simp [processBatch]
    | cons m rest ih =>
      intro ctr
      simp only [processBatch, List.filterMap_cons]
      rcases hdec : decryptMessage L U m.encryptedContent m.nonce key with e | t
      · simp [hdec, ih]
      · simp [hdec, ih]
  rcases isLoadingMore with _ | _
  · simp [hbatch]
  · simp [hbatch]

/-- C10: the `key_exchange` handler never overwrites an existing grant —
when a stored entry already has the incoming `recipientId` the stored
entries are left unchanged while the key material is still forwarded; the
stored entries always stay a prefix of the new state (the first grant for
a recipient is permanent); uniqueness of recipients among stored grants is
preserved; and the forward event always carries exactly the incoming key
material. -/
theorem keyExchange_noOverwrite (chat : ChatDoc) (e : KeyExchangePayload) :
    ((∃ k ∈ chat.encryptedKeys, k.recipientId = e.recipientId) →
      (keyExchange chat e).1 = chat) ∧
    (∃ rest, (keyExchange chat e).1.encryptedKeys = chat.encryptedKeys ++ rest) ∧
    (((chat.encryptedKeys.map (fun k => k.recipientId)).Nodup) →
      ((keyExchange chat e).1.encryptedKeys.map (fun k => k.recipientId)).Nodup) ∧
    (keyExchange chat e).2 =
      { chatId := e.chatId
        senderId := e.senderId
        encryptedSharedKey := e.encryptedSharedKey
        nonce := e.nonce } := by
  rcases hfind : chat.encryptedKeys.find? (fun k => k.recipientId == e.recipientId)
    with _ | k
  · have hnotin : ∀ k ∈ chat.encryptedKeys, k.recipientId ≠ e.recipientId := by
      intro k hk
      have := List.find?_eq_none.mp hfind k hk
      simpa using this
    refine ⟨?_, ?_, ?_, ?_⟩
    · rintro ⟨k, hk, hkr⟩
      exact absurd hkr (hnotin k hk)
    · refine ⟨[⟨e.recipientId, e.senderId, e.encryptedSharedKey, e.nonce⟩], ?_⟩
      simp [keyExchange, hfind]
    · intro hnd
      simp only [keyExchange, hfind, List.map_append, List.map_cons, List.map_nil]
      rw [List.nodup_append]
      refine ⟨hnd, List.nodup_singleton _, ?_⟩
      intro a ha
      simp only [List.mem_singleton]
      rcases List.mem_map.mp ha with ⟨k, hk, hkr⟩
      intro hae
      exact hnotin k hk (by rw [← hkr] at hae; exact hae)
    · simp [keyExchange, hfind]
  · refine ⟨fun _ => ?_, ⟨[], by simp [keyExchange, hfind]⟩, fun hnd => ?_, ?_⟩
    · simp [keyExchange, hfind]
    · simpa [keyExchange, hfind] using hnd
    · simp [keyExchange, hfind]

/-- A sample chat document holding one grant for recipient 2. -/
def sampleChat : ChatDoc :=
  { participants := [1, 2]
    encryptedKeys :=
      [{ recipientId := 2, senderId := 1, encryptedSharedKey := [10], nonce := [11] }] }

/-- A sample `key_exchange` event addressed to the already-served
recipient 2. -/
def samplePayload : KeyExchangePayload :=
  { chatId := 5, recipientId := 2, senderId := 1,
    encryptedSharedKey := [20], nonce := [21] }

theorem keyExchange_noOverwrite_witness :
    (keyExchange sampleChat samplePayload).1 = sampleChat :=
  (keyExchange_noOverwrite sampleChat samplePayload).1
    ⟨{ recipientId := 2, senderId := 1, encryptedSharedKey := [10], nonce := [11] },
      by decide, by decide⟩

end ChatE2E
